import Mathlib

/-!
Verification development for the trackerscope tracking-detection and
blocking engine.  The definitions below are a shallow embedding of the
Python sources `src/blocking/tracking_blocker.py` and
`src/analysis/tracking_analysis_engine.py`.  Pure computations are
embedded as Lean functions; database state is passed explicitly as
lists of rows; Python exceptions are embedded as `Except.error`.
Functions that the analysis engine invokes but that are not defined
anywhere in the source tree (`_identify_central_trackers`,
`_identify_tracking_chains`) are modelled from the specification and
marked as such in their doc comments.
-/

namespace Trackerscope

/-! ## String primitives

Structural re-implementations of the string operations the Python code
relies on (`in`, `urlparse(...).netloc`, `urlparse(...).query`,
`parse_qs`), written over `List Char` so that concrete instances
evaluate inside the kernel. -/

/-- Substring test on character lists: true iff `needle` occurs
contiguously in the list (an empty needle always occurs). -/
def containsChars (needle : List Char) : List Char → Bool
  | [] => needle.isEmpty
  | h :: t => needle.isPrefixOf (h :: t) || containsChars needle t

/-- Embeds Python's substring operator `needle in hay`. -/
def strContains (hay needle : String) : Bool :=
  containsChars needle.data hay.data

/-- Drops characters up to and including the first occurrence of `sep`;
`none` when `sep` does not occur. -/
def dropThroughSep (sep : List Char) : List Char → Option (List Char)
  | [] => none
  | h :: t =>
    if sep.isPrefixOf (h :: t) then some (List.drop sep.length (h :: t))
    else dropThroughSep sep t

/-- Embeds `urlparse(url).netloc` for the absolute URLs this system
handles: the text between the first `://` and the next `/`, `?` or `#`.
URLs without a scheme separator have an empty netloc. -/
def netloc (url : String) : String :=
  match dropThroughSep "://".data url.data with
  | some rest => String.mk (rest.takeWhile (fun c => !(c == '/' || c == '?' || c == '#')))
  | none => ""

/-- Embeds `urlparse(url).query`: the text after the first `?` of the
pre-fragment part of the URL. -/
def queryOf (url : String) : String :=
  match dropThroughSep ['?'] (url.data.takeWhile (fun c => !(c == '#'))) with
  | some rest => String.mk rest
  | none => ""

/-- Splits a character list at every occurrence of `c`. -/
def splitOnChar (c : Char) : List Char → List (List Char)
  | [] => [[]]
  | h :: t =>
    if h == c then [] :: splitOnChar c t
    else
      match splitOnChar c t with
      | [] => [[h]]
      | g :: gs => (h :: g) :: gs

/-- Splits a query field at its first `=`; `none` when there is no `=`
(such fields are dropped by `parse_qs`). -/
def splitFirstEq : List Char → Option (List Char × List Char)
  | [] => none
  | h :: t =>
    if h == '=' then some ([], t)
    else
      match splitFirstEq t with
      | none => none
      | some (k, v) => some (h :: k, v)

/-- Embeds `parse_qs(qs, keep_blank_values=True)` restricted to what
`_modify_request` observes afterwards: the raw `key=value` fields of the
query string in order.  Percent-decoding is not modelled; the claims
only involve queries without escapes. -/
def rawPairs (qs : String) : List (String × String) :=
  (splitOnChar '&' qs.data).filterMap fun part =>
    (splitFirstEq part).map fun kv => (String.mk kv.1, String.mk kv.2)

/-- The dictionary `parse_qs` builds, combined with the `v[0]` access of
the rebuild step: one entry per distinct key, in first-occurrence order,
carrying the first value seen for that key. -/
def parseQsFirst (qs : String) : List (String × String) :=
  (rawPairs qs).foldl
    (fun acc kv => if acc.any (fun kv2 => kv2.1 == kv.1) then acc else acc ++ [kv]) []

/-- Embeds `'&'.join(f"{k}={v[0]}" for k, v in query.items())`. -/
def joinAmp : List (String × String) → String
  | [] => ""
  | [kv] => kv.1 ++ "=" ++ kv.2
  | kv :: rest => kv.1 ++ "=" ++ kv.2 ++ "&" ++ joinAmp rest

/-! ## Rule store (`TrackingBlocker.load_rules` / `add_rule`) -/

/-- A row of the `blocking_rules` table. -/
structure StoredRule where
  id : Nat
  ruleType : String
  pattern : String
  action : String
  description : String
  priority : Int
  enabled : Bool
deriving Repr, DecidableEq

/-- The in-memory rule dictionary built by `load_rules`. -/
structure Rule where
  id : Nat
  pattern : String
  action : String
  description : String
  priority : Int
deriving Repr, DecidableEq

/-- Projection performed by the row-to-dict loop in `load_rules`. -/
def toRule (r : StoredRule) : Rule :=
  ⟨r.id, r.pattern, r.action, r.description, r.priority⟩

/-- The five per-category lists `load_rules` initialises. -/
structure RulesIndex where
  url : List Rule
  cookie : List Rule
  storage : List Rule
  script : List Rule
  fingerprint : List Rule
deriving Repr, DecidableEq

def emptyIndex : RulesIndex := ⟨[], [], [], [], []⟩

/-- One iteration of the loop `self.rules[rule[1]].append(rule_dict)`:
indexing the dictionary with an unknown `rule_type` raises `KeyError`. -/
def insertRule (idx : RulesIndex) (r : StoredRule) : Except String RulesIndex :=
  if r.ruleType = "url" then Except.ok { idx with url := idx.url ++ [toRule r] }
  else if r.ruleType = "cookie" then Except.ok { idx with cookie := idx.cookie ++ [toRule r] }
  else if r.ruleType = "storage" then Except.ok { idx with storage := idx.storage ++ [toRule r] }
  else if r.ruleType = "script" then Except.ok { idx with script := idx.script ++ [toRule r] }
  else if r.ruleType = "fingerprint" then Except.ok { idx with fingerprint := idx.fingerprint ++ [toRule r] }
  else Except.error ("KeyError: " ++ r.ruleType)

/-- The `for rule in c.fetchall()` loop of `load_rules`. -/
def insertRules : RulesIndex → List StoredRule → Except String RulesIndex
  | idx, [] => Except.ok idx
  | idx, r :: rs =>
    match insertRule idx r with
    | Except.error e => Except.error e
    | Except.ok idx2 => insertRules idx2 rs

/-- Row ordering of `ORDER BY priority`. -/
def priorityLe (a b : StoredRule) : Prop := a.priority ≤ b.priority

instance : DecidableRel priorityLe := fun a b => Int.decLe a.priority b.priority

/-- The result set of `SELECT * FROM blocking_rules WHERE enabled = 1
ORDER BY priority`, over a store listed in rowid (insertion) order: the
enabled rows, stably sorted by ascending priority. -/
def sortRules (rs : List StoredRule) : List StoredRule :=
  List.insertionSort priorityLe rs

/-- Embeds `load_rules`: builds the per-category index from the enabled
rows in ascending priority order; fails with `KeyError` on the first row
whose `rule_type` is not one of the five dictionary keys. -/
def loadRules (store : List StoredRule) : Except String RulesIndex :=
  insertRules emptyIndex (sortRules (store.filter (fun r => r.enabled)))

/-- True iff `t` is one of the five keys of the rules dictionary. -/
def validType (t : String) : Bool :=
  t == "url" || t == "cookie" || t == "storage" || t == "script" || t == "fingerprint"

/-- Embeds `add_rule`: the row is inserted and committed (with the
auto-increment id of an append-only store), and only then are the rules
reloaded; a reload failure propagates after the store was mutated.
Returns the mutated store together with the call's outcome. -/
def addRule (store : List StoredRule) (ruleType pat act desc : String) (priority : Int) :
    List StoredRule × Except String Nat :=
  let newId := store.length + 1
  let store2 := store ++ [⟨newId, ruleType, pat, act, desc, priority, true⟩]
  match loadRules store2 with
  | Except.error e => (store2, Except.error e)
  | Except.ok _ => (store2, Except.ok newId)

/-! ## Request interception (`_intercept_request` and helpers) -/

/-- The fields of an intercepted request that the blocker reads. -/
structure Request where
  url : String
  body : String
deriving Repr, DecidableEq

/-- A row of the `blocking_logs` table as written by `_log_blocking`. -/
structure LogRecord where
  ruleId : Option Nat
  action : String
  requestUrl : String
  requestType : String
  domain : String
deriving Repr, DecidableEq

/-- Embeds `_log_blocking`: the inserted row, with
`domain = urlparse(url).netloc`. -/
def logBlocking (ruleId : Option Nat) (act url requestType : String) : LogRecord :=
  ⟨ruleId, act, url, requestType, netloc url⟩

/-- The fixed regex catalogue of `_detect_fingerprinting`.  Every
pattern in the source escapes its dot (`canvas\.toDataURL`, ...), so as
a regex each one matches exactly its literal text. -/
def fingerprintingPatterns : List String :=
  ["canvas.toDataURL", "navigator.userAgent", "navigator.plugins",
   "navigator.platform", "navigator.language", "screen.width",
   "screen.height", "window.innerWidth", "window.innerHeight"]

/-- Embeds `_detect_fingerprinting`: searches the request body for any
of the fixed literal signatures. -/
def detectFingerprinting (req : Request) : Bool :=
  fingerprintingPatterns.any fun p => strContains req.body p

/-- The fixed deny-list of `_modify_request`. -/
def trackingParams : List String :=
  ["utm_source", "utm_medium", "utm_campaign", "fbclid", "gclid", "_ga", "ref"]

/-- The query string `_modify_request` computes for `url_parts[4]`:
tracking parameters removed, every other parameter kept (first value per
key), rejoined with `&`. -/
def strippedQueryString (qs : String) : String :=
  joinAmp ((parseQsFirst qs).filter fun kv => !(trackingParams.contains kv.1))

/-- Embeds `_modify_request`.  When the rule's pattern contains
`strip_params` the source computes the stripped query and then evaluates
`urlparse.urlunparse(url_parts)`; `urlunparse` was never imported and is
not an attribute of the `urlparse` function, so this raises
`AttributeError` before `request.url` is reassigned, on every request
that reaches the branch.  Otherwise the function does nothing. -/
def modifyRequest (rule : Rule) (req : Request) : Except String Request :=
  if strContains rule.pattern "strip_params" then
    Except.error "AttributeError: urlunparse"
  else
    Except.ok req

/-- Outcome of one `_intercept_request` call: the request as left by the
interceptor, whether `request.abort()` was called, and the log rows
appended to `blocking_logs`, in order. -/
structure InterceptResult where
  request : Request
  aborted : Bool
  logs : List LogRecord
deriving Repr, DecidableEq

/-- The `for rule in self.rules['url']` loop of `_intercept_request`,
parameterised by the regex matcher `m` (modelling
`re.search(pattern, text)`).  A matching `block` rule logs, aborts and
returns; a matching `modify` rule runs `_modify_request` (whose
exception propagates) and iteration continues; any other matching rule
does nothing and iteration continues. -/
def interceptUrlRules (m : String → String → Bool) :
    List Rule → Request → List LogRecord → Except String InterceptResult
  | [], req, logs => Except.ok ⟨req, false, logs⟩
  | rule :: rest, req, logs =>
    if m rule.pattern req.url then
      if rule.action = "block" then
        Except.ok ⟨req, true, logs ++ [logBlocking (some rule.id) "block" req.url "url"]⟩
      else if rule.action = "modify" then
        match modifyRequest rule req with
        | Except.error e => Except.error e
        | Except.ok req2 => interceptUrlRules m rest req2 logs
      else interceptUrlRules m rest req logs
    else interceptUrlRules m rest req logs

/-- The tail of `_intercept_request`: when the url-rule loop did not
abort, run `_detect_fingerprinting`; on detection, log a rule-less
`block` record with request type `fingerprint` and abort. -/
def fingerprintCheck (res : InterceptResult) : InterceptResult :=
  if res.aborted then res
  else if detectFingerprinting res.request then
    ⟨res.request, true, res.logs ++ [logBlocking none "block" res.request.url "fingerprint"]⟩
  else res

/-- Embeds `_intercept_request`: the url-rule loop (whose exception, if
any, propagates) followed by the fingerprint check. -/
def interceptRequest (m : String → String → Bool) (urlRules : List Rule) (req : Request) :
    Except String InterceptResult :=
  (interceptUrlRules m urlRules req []).map fingerprintCheck

/-- Interpretation of `re.search` for pattern strings that contain no
regex metacharacters, where regex search coincides with literal
substring search.  Used to instantiate the abstract matcher on the
concrete rule sets below, all of whose patterns are literal. -/
def matchesSub (pat text : String) : Bool :=
  strContains text pat

/-- The selection the specification describes: the first rule of the
category whose pattern matches the event, irrespective of its action. -/
def firstCategoryMatch (m : String → String → Bool) (rules : List Rule) (url : String) :
    Option Rule :=
  rules.find? fun r => m r.pattern url

/-! ## Cross-domain tracking graph (`_analyze_cross_domain_tracking`) -/

/-- The columns of a `requests` row read by the graph loop: the stored
`domain`, the request `url`, and the `third_party` flag of the SQL
filter.  The `headers` column is parsed but unused and is carried
opaquely. -/
structure NetworkRow where
  domain : String
  url : String
  headers : String
  thirdParty : Bool
deriving Repr, DecidableEq

/-- `networkx.DiGraph.add_edge`: idempotent edge insertion (a `DiGraph`
keeps no multiplicity). -/
def addEdge (edges : List (String × String)) (e : String × String) : List (String × String) :=
  if e ∈ edges then edges else edges ++ [e]

/-- One iteration of the edge-building loop of
`_analyze_cross_domain_tracking`: for a `third_party = 1` row,
`source = row.domain`, `target = urlparse(row.url).netloc`; the edge is
added whenever both are non-empty (truthy).  There is no
`source ≠ target` test. -/
def graphStep (edges : List (String × String)) (row : NetworkRow) : List (String × String) :=
  if row.thirdParty then
    if row.domain ≠ "" ∧ netloc row.url ≠ "" then
      addEdge edges (row.domain, netloc row.url)
    else edges
  else edges

/-- Embeds the edge-building loop of `_analyze_cross_domain_tracking`
over all `third_party = 1` rows of the `requests` table. -/
def crossDomainGraph (rows : List NetworkRow) : List (String × String) :=
  rows.foldl graphStep []

/-! ## Graph analyses

`_analyze_cross_domain_tracking` invokes `self._identify_central_trackers`
and `self._identify_tracking_chains`, but neither method is defined
anywhere in the source tree; they are modelled from the specification
(section 4.7) below. -/

/-- The node set of the graph: every domain occurring as a source or a
target, deduplicated. -/
def nodes (edges : List (String × String)) : List String :=
  (edges.map Prod.fst ++ edges.map Prod.snd).dedup

/-- In-degree of `d`: the number of distinct source domains with an edge
into `d`. -/
def inDegree (edges : List (String × String)) (d : String) : Nat :=
  (((edges.filter fun e => e.2 == d).map Prod.fst).dedup).length

/-- Ordering of central-tracker entries: descending score, ties broken
by ascending (lexicographic) domain name. -/
def centralR (a b : String × Nat) : Prop :=
  b.2 < a.2 ∨ (a.2 = b.2 ∧ a.1 ≤ b.1)

instance : DecidableRel centralR := fun a b =>
  inferInstanceAs (Decidable (b.2 < a.2 ∨ (a.2 = b.2 ∧ a.1 ≤ b.1)))

instance : IsTrans (String × Nat) centralR where
  trans a b c hab hbc := by
    rcases hab with h1 | ⟨h1, h1s⟩ <;> rcases hbc with h2 | ⟨h2, h2s⟩
    · exact Or.inl (lt_trans h2 h1)
    · exact Or.inl (h2 ▸ h1)
    · exact Or.inl (h1 ▸ h2)
    · exact Or.inr ⟨h1.trans h2, le_trans h1s h2s⟩

instance : IsTotal (String × Nat) centralR where
  total a b := by
    rcases lt_trichotomy a.2 b.2 with h | h | h
    · exact Or.inr (Or.inl h)
    · rcases le_total a.1 b.1 with hs | hs
      · exact Or.inl (Or.inr ⟨h, hs⟩)
      · exact Or.inr (Or.inr ⟨h.symm, hs⟩)
    · exact Or.inl (Or.inl h)

/-- Modelled from the spec: `_identify_central_trackers` is invoked by
`_analyze_cross_domain_tracking` but is not defined anywhere under the
source tree.  Spec section 4.7: score each domain by in-degree, order
descending by score with lexicographic tie-break on the domain name,
truncate to the top `k`. -/
def centralTrackers (edges : List (String × String)) (k : Nat) : List (String × Nat) :=
  (List.insertionSort centralR ((nodes edges).map fun d => (d, inDegree edges d))).take k

/-- Successors of `u` that do not yet occur on the path. -/
def successorsAvoiding (edges : List (String × String)) (u : String) (avoid : List String) :
    List String :=
  (edges.filter fun e => e.1 == u && decide (e.2 ∉ avoid)).map Prod.snd

/-- Modelled from the spec: simple-path extension step for
`_identify_tracking_chains` (not defined anywhere under the source
tree).  From current endpoint `u` with nodes `path` already on the path,
returns every simple extension of `path` by 1 up to `fuel` edges.
Totality in `fuel` is the termination bound the spec requires on cyclic
graphs. -/
def chainsFrom (edges : List (String × String)) : Nat → String → List String → List (List String)
  | 0, _, _ => []
  | fuel + 1, u, path =>
    (successorsAvoiding edges u path).flatMap fun v =>
      (path ++ [v]) :: chainsFrom edges fuel v (path ++ [v])

/-- Modelled from the spec: `_identify_tracking_chains`, spec section
4.7 — enumerate the simple directed paths of edge-length 2 up to
`maxLength` (node-lists of 3 up to `maxLength + 1` distinct nodes). -/
def trackingChains (edges : List (String × String)) (maxLength : Nat) : List (List String) :=
  (nodes edges).flatMap fun u =>
    (chainsFrom edges maxLength u [u]).filter fun p => decide (3 ≤ p.length)

/-! ## Risk assessment (`_assess_privacy_risks`) -/

/-- A finding as appended to the risk lists. -/
structure Finding where
  kind : String
  description : String
  impact : String
  mitigation : String
deriving Repr, DecidableEq

/-- The result dictionary of `_assess_privacy_risks`. -/
structure RiskAssessment where
  highRisk : List Finding
  mediumRisk : List Finding
  lowRisk : List Finding
  riskScore : Nat
deriving Repr, DecidableEq

/-- The one finding `_assess_privacy_risks` can emit. -/
def persistentFingerprintingFinding : Finding :=
  ⟨"persistent_fingerprinting", "Persistent device fingerprinting detected",
   "High", "Use anti-fingerprinting tools"⟩

/-- Embeds `_assess_privacy_risks`.  The detector
`_has_persistent_fingerprinting` is invoked but not defined in the
source tree, so its verdict is taken as the input: when it holds, the
finding is appended and 30 points are added; the score is capped with
`min(risk_score, 100)`. -/
def assessPrivacyRisks (hasPersistentFingerprinting : Bool) : RiskAssessment :=
  let highRisk := if hasPersistentFingerprinting then [persistentFingerprintingFinding] else []
  let score : Nat := if hasPersistentFingerprinting then 30 else 0
  ⟨highRisk, [], [], min score 100⟩

/-- The additive-then-capped scoring scheme of `_assess_privacy_risks`
in isolation: points of the detected conditions summed, capped at 100. -/
def cappedScore (points : List Nat) : Nat :=
  min points.sum 100

/-- Point contributions of the conditions detected by
`_assess_privacy_risks` (a single implemented condition). -/
def riskPoints (hasPersistentFingerprinting : Bool) : List Nat :=
  if hasPersistentFingerprinting then [30] else []

/-- Necessary condition for a pattern string to compile under
`re.compile`: its parentheses balance.  The pattern `"("` violates it
and raises `re.error` (missing `)`, unterminated subpattern). -/
def parenDepth : List Char → Int → Bool
  | [], d => d == 0
  | c :: cs, d =>
    if c == '(' then parenDepth cs (d + 1)
    else if c == ')' then decide (0 < d) && parenDepth cs (d - 1)
    else parenDepth cs d

def balancedParens (s : String) : Bool :=
  parenDepth s.data 0

/-! ## Concrete instances used by the counterexamples and witnesses -/

/-- Stored rule: priority-1 modify rule on the url category whose
literal pattern `x` matches any URL containing `x`. -/
def c1row1 : StoredRule := ⟨1, "url", "x", "modify", "d1", 1, true⟩

/-- Stored rule: priority-2 block rule on the url category whose literal
pattern `x.com` also matches the demo request. -/
def c1row2 : StoredRule := ⟨2, "url", "x.com", "block", "d2", 2, true⟩

def c1rule1 : Rule := toRule c1row1

def c1rule2 : Rule := toRule c1row2

def c1req : Request := ⟨"https://x.com/a", ""⟩

/-- A matching modify rule (pattern without `strip_params`). -/
def c2rule : Rule := ⟨1, "x", "modify", "d", 1⟩

/-- A request whose body carries a fingerprinting signature. -/
def c2req : Request := ⟨"https://x.com/a", "navigator.userAgent"⟩

/-- The outcome `_intercept_request` produces on `c2req` under
`[c2rule]`: fingerprint-forced block although the rule matched. -/
def c2res : InterceptResult :=
  ⟨c2req, true, [⟨none, "block", "https://x.com/a", "fingerprint", "x.com"⟩]⟩

def c3modRule : Rule := ⟨1, "x", "modify", "d", 1⟩

def c3req : Request := ⟨"https://x.com/a", ""⟩

def c3blockRule : Rule := ⟨1, "track", "block", "d", 1⟩

def c3breq : Request := ⟨"https://ads.example/track?x=1", ""⟩

def c3bres : InterceptResult :=
  ⟨c3breq, true, [⟨some 1, "block", "https://ads.example/track?x=1", "url", "ads.example"⟩]⟩

/-- A third-party request row whose stored domain equals the netloc of
its own URL. -/
def c4row : NetworkRow := ⟨"a.com", "http://a.com/x", "", true⟩

/-- A modify rule whose pattern contains `strip_params`. -/
def c9rule : Rule := ⟨1, "strip_params", "modify", "d", 1⟩

def c9req : Request := ⟨"https://x.com/?utm_source=a&id=7", ""⟩

end Trackerscope

namespace Trackerscope

/-! ## Theorems -/

/-- Membership in `addEdge`. -/
theorem mem_addEdge {edges : List (String × String)} {e x : String × String} :
    x ∈ addEdge edges e ↔ x ∈ edges ∨ x = e := by
  unfold addEdge
  split
  · rename_i h
    constructor
    · exact Or.inl
    · rintro (hx | rfl)
      · exact hx
      · exact h
  · simp [List.mem_append]

/-- Membership in one step of the graph-building loop. -/
theorem mem_graphStep {edges : List (String × String)} {row : NetworkRow}
    {x : String × String} :
    x ∈ graphStep edges row ↔
      x ∈ edges ∨ (row.thirdParty = true ∧ x = (row.domain, netloc row.url) ∧
        row.domain ≠ "" ∧ netloc row.url ≠ "") := by
  unfold graphStep
  split
  · rename_i htp
    split
    · rename_i hne
      rw [mem_addEdge]
      constructor
      · rintro (hx | rfl)
        · exact Or.inl hx
        · exact Or.inr ⟨htp, rfl, hne.1, hne.2⟩
      · rintro (hx | ⟨_, rfl, _, _⟩)
        · exact Or.inl hx
        · exact Or.inr rfl
    · rename_i hne
      constructor
      · exact Or.inl
      · rintro (hx | ⟨_, rfl, h1, h2⟩)
        · exact hx
        · exact absurd ⟨h1, h2⟩ hne
  · rename_i htp
    constructor
    · exact Or.inl
    · rintro (hx | ⟨h, _, _, _⟩)
      · exact hx
      · exact absurd h (by simpa using htp)

/-- Membership in the folded graph, with a general accumulator. -/
theorem mem_crossDomainGraph_aux (rows : List NetworkRow) :
    ∀ (acc : List (String × String)) (x : String × String),
    x ∈ rows.foldl graphStep acc ↔
      x ∈ acc ∨ ∃ row ∈ rows, row.thirdParty = true ∧
        x = (row.domain, netloc row.url) ∧ row.domain ≠ "" ∧ netloc row.url ≠ "" := by
  induction rows with
  | nil => intro acc x; simp
  | cons row rows ih =>
    intro acc x
    rw [List.foldl_cons, ih, mem_graphStep]
    constructor
    · rintro ((hx | ⟨htp, hxe, h1, h2⟩) | ⟨r, hr, hrest⟩)
      · exact Or.inl hx
      · exact Or.inr ⟨row, List.mem_cons_self .., htp, hxe, h1, h2⟩
      · exact Or.inr ⟨r, List.mem_cons_of_mem _ hr, hrest⟩
    · rintro (hx | ⟨r, hr, hrest⟩)
      · exact Or.inl (Or.inl hx)
      · rcases List.mem_cons.mp hr with rfl | hr
        · exact Or.inl (Or.inr hrest)
        · exact Or.inr ⟨r, hr, hrest⟩

/-- C4 (corrected), counterexample: the single third-party row with
stored domain `a.com` and URL `http://a.com/x` produces the self-loop
edge `(a.com, a.com)` — the claim that an edge is added only when the
source differs from the destination is false of the code, which checks
only that both are non-empty. -/
theorem c4_self_loop_created :
    crossDomainGraph [c4row] = [("a.com", "a.com")] ∧
    ("a.com", "a.com") ∈ crossDomainGraph [c4row] :=
  ⟨rfl, by decide⟩

/-- C4 (amended): the graph built by `_analyze_cross_domain_tracking`
contains the edge `(s, t)` exactly when some `third_party = 1` row has
recorded domain `s`, request-URL netloc `t`, and both are non-empty;
no `source ≠ destination` test is made, so self-loop edges are created
whenever `s = t` satisfies these conditions. -/
theorem c4_edge_membership (rows : List NetworkRow) (s t : String) :
    (s, t) ∈ crossDomainGraph rows ↔
      ∃ row ∈ rows, row.thirdParty = true ∧ row.domain = s ∧ netloc row.url = t ∧
        s ≠ "" ∧ t ≠ "" := by
  unfold crossDomainGraph
  rw [mem_crossDomainGraph_aux]
  constructor
  · rintro (hx | ⟨row, hr, htp, hxe, h1, h2⟩)
    · exact absurd hx (List.not_mem_nil _)
    · injection hxe with e1 e2
      exact ⟨row, hr, htp, e1.symm, e2.symm, e1 ▸ h1, e2 ▸ h2⟩
  · rintro ⟨row, hr, htp, rfl, rfl, h1, h2⟩
    exact Or.inr ⟨row, hr, htp, rfl, h1, h2⟩

/-- C7 (confirmed): the risk score of `_assess_privacy_risks` is capped
at 100; it equals the additive-then-capped scheme over the detected
conditions' points; the capped sum never decreases when a finding's
points are appended and is itself bounded by 100; and a run whose
findings include another run's findings scores at least as high.
Determinism is definitional: the embedding is a pure function of the
detector's verdict. -/
theorem c7_risk_score_monotone_bounded :
    (∀ b, (assessPrivacyRisks b).riskScore ≤ 100) ∧
    (∀ b, (assessPrivacyRisks b).riskScore = cappedScore (riskPoints b)) ∧
    (∀ (ps : List Nat) (p : Nat), cappedScore ps ≤ cappedScore (ps ++ [p])) ∧
    (∀ ps : List Nat, cappedScore ps ≤ 100) ∧
    (∀ b1 b2, (assessPrivacyRisks b1).highRisk ⊆ (assessPrivacyRisks b2).highRisk →
      (assessPrivacyRisks b1).riskScore ≤ (assessPrivacyRisks b2).riskScore) := by
  refine ⟨?_, ?_, ?_, ?_, ?_⟩
  · intro b; cases b <;> simp [assessPrivacyRisks]
  · intro b; cases b <;> rfl
  · intro ps p
    unfold cappedScore
    exact min_le_min (by simp) le_rfl
  · intro ps; exact min_le_right _ _
  · intro b1 b2 h
    cases b1 <;> cases b2 <;> simp_all [assessPrivacyRisks]

/-- Witness for C7: adding the persistent-fingerprinting finding to the
empty finding set does not lower the score. -/
theorem c7_risk_score_monotone_bounded_witness :
    (assessPrivacyRisks false).highRisk ⊆ (assessPrivacyRisks true).highRisk ∧
    (assessPrivacyRisks false).riskScore ≤ (assessPrivacyRisks true).riskScore :=
  ⟨by simp [assessPrivacyRisks], c7_risk_score_monotone_bounded.2.2.2.2 false true
    (by simp [assessPrivacyRisks])⟩

/-- C9 (code bug): on the request `https://x.com/?utm_source=a&id=7`
under a `strip_params` modify rule, the stripping computation itself
yields `id=7` (deny-listed `utm_source` removed, `id=7` kept), but
`_modify_request` then evaluates `urlparse.urlunparse(url_parts)`, which
raises `AttributeError` (`urlunparse` was never imported and is not an
attribute of the `urlparse` function), so the request URL is never
rewritten. -/
theorem c9_modify_request_raises :
    strippedQueryString (queryOf c9req.url) = "id=7" ∧
    strContains c9rule.pattern "strip_params" = true ∧
    modifyRequest c9rule c9req = Except.error "AttributeError: urlunparse" :=
  ⟨rfl, rfl, rfl⟩

/-- Inserting a rule with a recognised category always succeeds. -/
theorem insertRule_ok_of_valid {idx : RulesIndex} {r : StoredRule}
    (h : validType r.ruleType = true) : ∃ idx2, insertRule idx r = Except.ok idx2 := by
  unfold insertRule
  by_cases h1 : r.ruleType = "url"
  · rw [if_pos h1]; exact ⟨_, rfl⟩
  rw [if_neg h1]
  by_cases h2 : r.ruleType = "cookie"
  · rw [if_pos h2]; exact ⟨_, rfl⟩
  rw [if_neg h2]
  by_cases h3 : r.ruleType = "storage"
  · rw [if_pos h3]; exact ⟨_, rfl⟩
  rw [if_neg h3]
  by_cases h4 : r.ruleType = "script"
  · rw [if_pos h4]; exact ⟨_, rfl⟩
  rw [if_neg h4]
  by_cases h5 : r.ruleType = "fingerprint"
  · rw [if_pos h5]; exact ⟨_, rfl⟩
  exfalso
  unfold validType at h
  simp only [Bool.or_eq_true, beq_iff_eq] at h
  rcases h with ((((h | h) | h) | h) | h)
  · exact h1 h
  · exact h2 h
  · exact h3 h
  · exact h4 h
  · exact h5 h

/-- Inserting a rule with an unrecognised category raises `KeyError`. -/
theorem insertRule_error_of_invalid {idx : RulesIndex} {r : StoredRule}
    (h : validType r.ruleType = false) :
    insertRule idx r = Except.error ("KeyError: " ++ r.ruleType) := by
  unfold validType at h
  simp only [Bool.or_eq_false_iff, beq_eq_false_iff_ne, ne_eq] at h
  obtain ⟨⟨⟨⟨h1, h2⟩, h3⟩, h4⟩, h5⟩ := h
  unfold insertRule
  rw [if_neg h1, if_neg h2, if_neg h3, if_neg h4, if_neg h5]

/-- The row-insertion loop of `load_rules` succeeds exactly when every
row has a recognised category. -/
theorem insertRules_ok_iff (l : List StoredRule) : ∀ idx : RulesIndex,
    (∃ idx2, insertRules idx l = Except.ok idx2) ↔
      ∀ r ∈ l, validType r.ruleType = true := by
  induction l with
  | nil => intro idx; simp [insertRules]
  | cons r rs ih =>
    intro idx
    constructor
    · rintro ⟨idx2, h⟩
      unfold insertRules at h
      cases hr : insertRule idx r with
      | error e => rw [hr] at h; cases h
      | ok idxr =>
        rw [hr] at h
        intro x hx
        rcases List.mem_cons.mp hx with rfl | hx
        · by_contra hv
          rw [insertRule_error_of_invalid (Bool.not_eq_true _ ▸ hv)] at hr
          cases hr
        · exact ((ih idxr).mp ⟨idx2, h⟩) x hx
    · intro h
      obtain ⟨idxr, hr⟩ := insertRule_ok_of_valid (h r (List.mem_cons_self ..))
      obtain ⟨idx2, h2⟩ := (ih idxr).mpr fun x hx => h x (List.mem_cons_of_mem _ hx)
      exact ⟨idx2, by unfold insertRules; rw [hr]; exact h2⟩

/-- When every invalid row of the list carries the category `cat` and at
least one row is invalid, the insertion loop raises `KeyError: cat`. -/
theorem insertRules_error_of_bad (cat : String) (l : List StoredRule) : ∀ idx : RulesIndex,
    (∀ r ∈ l, validType r.ruleType = false → r.ruleType = cat) →
    (∃ r ∈ l, validType r.ruleType = false) →
    insertRules idx l = Except.error ("KeyError: " ++ cat) := by
  induction l with
  | nil => intro idx _ h; simp at h
  | cons r rs ih =>
    intro idx hall hex
    cases hv : validType r.ruleType with
    | false =>
      have : r.ruleType = cat := hall r (List.mem_cons_self ..) hv
      unfold insertRules
      rw [insertRule_error_of_invalid hv, this]
    | true =>
      obtain ⟨idxr, hr⟩ := insertRule_ok_of_valid hv
      have hex2 : ∃ x ∈ rs, validType x.ruleType = false := by
        rcases hex with ⟨x, hx, hxv⟩
        rcases List.mem_cons.mp hx with rfl | hx
        · rw [hv] at hxv; cases hxv
        · exact ⟨x, hx, hxv⟩
      unfold insertRules
      rw [hr]
      exact ih idxr (fun x hx => hall x (List.mem_cons_of_mem _ hx)) hex2

/-- Membership in the sorted result set equals membership in the store. -/
theorem mem_sortRules {r : StoredRule} {l : List StoredRule} :
    r ∈ sortRules l ↔ r ∈ l :=
  (List.perm_insertionSort priorityLe l).mem_iff

/-- `load_rules` succeeds exactly when every enabled row of the store
has a recognised category. -/
theorem loadRules_isOk_iff (store : List StoredRule) :
    (∃ idx, loadRules store = Except.ok idx) ↔
      ∀ r ∈ store, r.enabled = true → validType r.ruleType = true := by
  unfold loadRules
  rw [insertRules_ok_iff]
  constructor
  · intro h r hr hen
    exact h r (mem_sortRules.mpr (List.mem_filter.mpr ⟨hr, hen⟩))
  · intro h r hr
    have hf := List.mem_filter.mp (mem_sortRules.mp hr)
    exact h r hf.1 hf.2

/-- C8 (corrected), counterexample: the pattern `(` violates a necessary
condition of `re.compile` (balanced parentheses; compiling it raises
`re.error`), yet `add_rule` accepts it without any `ValidationError` and
returns the new rule id — no validation of the pattern (or category)
happens at add time; the malformed pattern is stored for evaluation. -/
theorem c8_invalid_pattern_accepted :
    balancedParens "(" = false ∧
    (addRule [] "url" "(" "block" "d" 1).2 = Except.ok 1 :=
  ⟨by decide, rfl⟩

/-- C8 (amended): `add_rule` performs no validation of the pattern
whatsoever: over any store whose enabled rows have recognised
categories, adding a url rule with an arbitrary pattern string —
including one that does not compile as a regular expression — succeeds
and returns the new row id.  (A malformed pattern therefore reaches
`re.search` at evaluation time; an unrecognised category instead makes
the post-insert reload raise `KeyError`, see the C10 theorem.) -/
theorem c8_add_rule_never_validates (store : List StoredRule) (pat act desc : String)
    (prio : Int)
    (hok : ∀ r ∈ store, r.enabled = true → validType r.ruleType = true) :
    (addRule store "url" pat act desc prio).2 = Except.ok (store.length + 1) := by
  have hall : ∀ r ∈ store ++ [⟨store.length + 1, "url", pat, act, desc, prio, true⟩],
      r.enabled = true → validType r.ruleType = true := by
    intro r hr hen
    rcases List.mem_append.mp hr with h | h
    · exact hok r h hen
    · rcases List.mem_singleton.mp h with rfl
      rfl
  obtain ⟨idx, hidx⟩ := (loadRules_isOk_iff _).mpr hall
  simp only [addRule]
  rw [hidx]

/-- Witness for C8: over a store holding one valid cookie rule, adding a
url rule with the uncompilable pattern `(` succeeds with id 2. -/
theorem c8_add_rule_never_validates_witness :
    balancedParens "(" = false ∧
    (addRule [⟨1, "cookie", "_ga", "block", "d", 1, true⟩] "url" "(" "block" "d" 2).2 =
      Except.ok 2 :=
  ⟨by decide, c8_add_rule_never_validates [⟨1, "cookie", "_ga", "block", "d", 1, true⟩]
    "(" "block" "d" 2 (by decide)⟩

/-- C10 (confirmed): adding a rule whose category is not one of the five
dictionary keys inserts and commits the row, and the reload that
`add_rule` then performs raises `KeyError` for that category; the store
is left mutated (the bad row is in it) although the call failed, and
every subsequent reload — whatever rows are appended afterwards — fails
as well, because the enabled bad row remains in the store. -/
theorem c10_bad_category_poisons_store (store : List StoredRule)
    (cat pat act desc : String) (prio : Int)
    (hcat : validType cat = false)
    (hok : ∀ r ∈ store, r.enabled = true → validType r.ruleType = true) :
    (addRule store cat pat act desc prio).2 = Except.error ("KeyError: " ++ cat) ∧
    (⟨store.length + 1, cat, pat, act, desc, prio, true⟩ : StoredRule) ∈
      (addRule store cat pat act desc prio).1 ∧
    ∀ extra : List StoredRule,
      (loadRules ((addRule store cat pat act desc prio).1 ++ extra)).isOk = false := by
  set bad : StoredRule := ⟨store.length + 1, cat, pat, act, desc, prio, true⟩ with hbad
  have hload : loadRules (store ++ [bad]) = Except.error ("KeyError: " ++ cat) := by
    unfold loadRules
    apply insertRules_error_of_bad
    · intro r hr hrv
      have hf := List.mem_filter.mp (mem_sortRules.mp hr)
      rcases List.mem_append.mp hf.1 with h | h
      · exact absurd (hok r h hf.2) (by simp [hrv])
      · rcases List.mem_singleton.mp h with rfl
        rfl
    · refine ⟨bad, mem_sortRules.mpr (List.mem_filter.mpr ⟨?_, rfl⟩), hcat⟩
      exact List.mem_append.mpr (Or.inr (List.mem_singleton_self _))
  refine ⟨?_, ?_, ?_⟩
  · simp only [addRule]
    rw [hload]
  · simp only [addRule]
    rw [hload]
    exact List.mem_append.mpr (Or.inr (List.mem_singleton_self _))
  · intro extra
    have hstore : (addRule store cat pat act desc prio).1 = store ++ [bad] := by
      simp only [addRule]
      rw [hload]
    rw [hstore]
    cases hl : loadRules ((store ++ [bad]) ++ extra) with
    | error e => rfl
    | ok idx =>
      have := (loadRules_isOk_iff _).mp ⟨idx, hl⟩ bad
        (List.mem_append.mpr (Or.inl (List.mem_append.mpr (Or.inr (List.mem_singleton_self _)))))
        rfl
      rw [hcat] at this
      cases this

/-- Witness for C10: adding a rule with category `bogus` to the empty
store fails with `KeyError: bogus`, leaves the row in the store, and the
next reload fails. -/
theorem c10_bad_category_poisons_store_witness :
    validType "bogus" = false ∧
    (addRule [] "bogus" "p" "block" "d" 1).2 = Except.error "KeyError: bogus" ∧
    (⟨1, "bogus", "p", "block", "d", 1, true⟩ : StoredRule) ∈
      (addRule [] "bogus" "p" "block" "d" 1).1 ∧
    (loadRules ((addRule [] "bogus" "p" "block" "d" 1).1 ++ [])).isOk = false := by
  have h := c10_bad_category_poisons_store [] "bogus" "p" "block" "d" 1 (by decide) (by simp)
  exact ⟨by decide, h.1, h.2.1, h.2.2 []⟩

/-- A successful `_modify_request` leaves the request unchanged: the
only in-place mutation sits behind the `strip_params` branch, which
always raises. -/
theorem modifyRequest_eq_ok {rule : Rule} {req req2 : Request}
    (h : modifyRequest rule req = Except.ok req2) : req2 = req := by
  unfold modifyRequest at h
  split at h
  · cases h
  · injection h with h
    exact h.symm

/-- The url-rule loop stops at the first matching block rule: whatever
follows it is never evaluated, and the only effect is that rule's log
record and the abort.  The rules before it may match, provided none is a
block rule and none is a modify rule whose pattern contains
`strip_params` (which would raise instead). -/
theorem interceptUrlRules_first_block (m : String → String → Bool) (rs1 rs2 : List Rule)
    (b : Rule) (req : Request) (logs : List LogRecord)
    (hmatch : m b.pattern req.url = true) (hblock : b.action = "block")
    (h1 : ∀ r ∈ rs1, m r.pattern req.url = true →
      r.action ≠ "block" ∧ (r.action = "modify" → strContains r.pattern "strip_params" = false)) :
    interceptUrlRules m (rs1 ++ b :: rs2) req logs =
      Except.ok ⟨req, true, logs ++ [logBlocking (some b.id) "block" req.url "url"]⟩ := by
  induction rs1 with
  | nil =>
    rw [List.nil_append]
    unfold interceptUrlRules
    rw [if_pos hmatch, if_pos hblock]
  | cons r rs ih =>
    have hr := h1 r (List.mem_cons_self ..)
    have hrest : ∀ x ∈ rs, m x.pattern req.url = true →
        x.action ≠ "block" ∧ (x.action = "modify" → strContains x.pattern "strip_params" = false) :=
      fun x hx => h1 x (List.mem_cons_of_mem _ hx)
    rw [List.cons_append]
    unfold interceptUrlRules
    by_cases hm : m r.pattern req.url = true
    · rw [if_pos hm]
      rw [if_neg (hr hm).1]
      by_cases hmod : r.action = "modify"
      · rw [if_pos hmod]
        have : modifyRequest r req = Except.ok req := by
          unfold modifyRequest
          rw [if_neg (by simp [(hr hm).2 hmod])]
        rw [this]
        exact ih hrest
      · rw [if_neg hmod]
        exact ih hrest
    · rw [if_neg hm]
      exact ih hrest

/-- C1 (amended): for every matcher, every request and every rule
sequence split as `rs1 ++ b :: rs2` where `b` is the first matching
block rule (no rule of `rs1` is a matching block rule, and no matching
modify rule of `rs1` hits the raising `strip_params` branch),
`_intercept_request` blocks with exactly `b`'s log record: the first
matching **block** rule wins and nothing after it is evaluated — but
matches of non-block rules before it do not stop the iteration. -/
theorem c1_first_block_rule_wins (m : String → String → Bool) (rs1 rs2 : List Rule)
    (b : Rule) (req : Request)
    (hmatch : m b.pattern req.url = true) (hblock : b.action = "block")
    (h1 : ∀ r ∈ rs1, m r.pattern req.url = true →
      r.action ≠ "block" ∧ (r.action = "modify" → strContains r.pattern "strip_params" = false)) :
    interceptRequest m (rs1 ++ b :: rs2) req =
      Except.ok ⟨req, true, [logBlocking (some b.id) "block" req.url "url"]⟩ := by
  unfold interceptRequest
  rw [interceptUrlRules_first_block m rs1 rs2 b req [] hmatch hblock h1]
  rfl

/-- Witness for C1: on the two-rule demo set (priority-1 modify rule,
priority-2 block rule, both matching) the block rule's record is the one
produced. -/
theorem c1_first_block_rule_wins_witness :
    matchesSub c1rule2.pattern c1req.url = true ∧
    interceptRequest matchesSub [c1rule1, c1rule2] c1req =
      Except.ok ⟨c1req, true, [logBlocking (some c1rule2.id) "block" c1req.url "url"]⟩ :=
  ⟨by decide, c1_first_block_rule_wins matchesSub [c1rule1] [] c1rule2 c1req (by decide) rfl
    (by decide)⟩

/-- C1 (corrected), counterexample: loading the demo store yields the
url rules in ascending priority order `[c1rule1, c1rule2]`; the first
rule whose pattern matches the request is the priority-1 modify rule,
yet the engine goes on to evaluate the priority-2 rule, which blocks the
request and is the rule recorded in the log — so it is false that once a
rule matches no further rule in the category is evaluated. -/
theorem c1_first_match_not_selected :
    loadRules [c1row1, c1row2] = Except.ok ⟨[c1rule1, c1rule2], [], [], [], []⟩ ∧
    firstCategoryMatch matchesSub [c1rule1, c1rule2] c1req.url = some c1rule1 ∧
    c1rule1.action = "modify" ∧
    interceptRequest matchesSub [c1rule1, c1rule2] c1req =
      Except.ok ⟨c1req, true, [⟨some 2, "block", "https://x.com/a", "url", "x.com"⟩]⟩ :=
  ⟨rfl, rfl, rfl, rfl⟩

/-- Every log record the url-rule loop appends has request type `url`. -/
theorem interceptUrlRules_logs_url (m : String → String → Bool) :
    ∀ (rules : List Rule) (req : Request) (logs : List LogRecord) (res : InterceptResult),
    interceptUrlRules m rules req logs = Except.ok res →
    ∀ rec ∈ res.logs, rec ∈ logs ∨ rec.requestType = "url" := by
  intro rules
  induction rules with
  | nil =>
    intro req logs res h rec hrec
    unfold interceptUrlRules at h
    injection h with h
    subst h
    exact Or.inl hrec
  | cons r rs ih =>
    intro req logs res h rec hrec
    unfold interceptUrlRules at h
    split at h
    · split at h
      · injection h with h
        subst h
        rcases List.mem_append.mp hrec with hx | hx
        · exact Or.inl hx
        · rcases List.mem_singleton.mp hx with rfl
          exact Or.inr rfl
      · split at h
        · rename_i heq
          cases hmod : modifyRequest r req with
          | error e => rw [hmod] at h; cases h
          | ok req2 => rw [hmod] at h; exact ih req2 logs res h rec hrec
        · exact ih req logs res h rec hrec
    · exact ih req logs res h rec hrec

/-- When the url-rule loop finishes without aborting, no rule of the
list is a matching block rule. -/
theorem interceptUrlRules_no_block_match (m : String → String → Bool) :
    ∀ (rules : List Rule) (req : Request) (logs : List LogRecord) (res : InterceptResult),
    interceptUrlRules m rules req logs = Except.ok res → res.aborted = false →
    ∀ r ∈ rules, ¬(m r.pattern req.url = true ∧ r.action = "block") := by
  intro rules
  induction rules with
  | nil => intro req logs res _ _ r hr; cases hr
  | cons r rs ih =>
    intro req logs res h hab x hx
    unfold interceptUrlRules at h
    rcases List.mem_cons.mp hx with rfl | hx
    · rintro ⟨hm, hbl⟩
      rw [if_pos hm, if_pos hbl] at h
      injection h with h
      subst h
      cases hab
    · by_cases hm : m r.pattern req.url = true
      · rw [if_pos hm] at h
        by_cases hbl : r.action = "block"
        · rw [if_pos hbl] at h
          injection h with h
          subst h
          cases hab
        · rw [if_neg hbl] at h
          by_cases hmd : r.action = "modify"
          · rw [if_pos hmd] at h
            cases hmod : modifyRequest r req with
            | error e => rw [hmod] at h; cases h
            | ok req2 =>
              rw [hmod] at h
              rw [modifyRequest_eq_ok hmod] at h
              exact ih req logs res h hab x hx
          · rw [if_neg hmd] at h
            exact ih req logs res h hab x hx
      · rw [if_neg hm] at h
        exact ih req logs res h hab x hx

/-- C2 (amended): a fingerprint-forced block record is produced only
when no enabled url rule with action `block` matches the request —
block-rule decisions do take precedence over the heuristic, but matches
of non-block rules (modify, log) do not suppress it. -/
theorem c2_fingerprint_requires_no_block_match (m : String → String → Bool)
    (rules : List Rule) (req : Request) (res : InterceptResult)
    (h : interceptRequest m rules req = Except.ok res)
    (hfp : logBlocking none "block" res.request.url "fingerprint" ∈ res.logs) :
    ∀ r ∈ rules, ¬(m r.pattern req.url = true ∧ r.action = "block") := by
  unfold interceptRequest at h
  cases hloop : interceptUrlRules m rules req [] with
  | error e => rw [hloop] at h; cases h
  | ok res0 =>
    rw [hloop] at h
    simp only [Except.map] at h
    injection h with h
    by_cases hab : res0.aborted = true
    · rw [fingerprintCheck, if_pos hab] at h
      subst h
      rcases interceptUrlRules_logs_url m rules req [] res0 hloop _ hfp with h' | h'
      · cases h'
      · have hq : ("fingerprint" : String) = "url" := h'
        exact absurd hq (by decide)
    · exact interceptUrlRules_no_block_match m rules req [] res0 hloop
        (Bool.not_eq_true _ ▸ hab)

/-- Witness for C2: on the demo input the heuristic fires although the
modify rule matched, and indeed no matching block rule exists. -/
theorem c2_fingerprint_requires_no_block_match_witness :
    interceptRequest matchesSub [c2rule] c2req = Except.ok c2res ∧
    logBlocking none "block" c2res.request.url "fingerprint" ∈ c2res.logs ∧
    ¬(matchesSub c2rule.pattern c2req.url = true ∧ c2rule.action = "block") :=
  ⟨rfl, by decide,
    c2_fingerprint_requires_no_block_match matchesSub [c2rule] c2req c2res rfl (by decide)
      c2rule (by decide)⟩

/-- C2 (corrected), counterexample: the modify rule matches the request
(it is the first category match), yet because its action is not `block`
the loop falls through and the fingerprint heuristic overrides the
matched rule's decision, producing a fingerprint-forced block — so it is
false that a rule match always prevents the fingerprint override. -/
theorem c2_rule_match_overridden_by_fingerprint :
    firstCategoryMatch matchesSub [c2rule] c2req.url = some c2rule ∧
    detectFingerprinting c2req = true ∧
    interceptRequest matchesSub [c2rule] c2req = Except.ok c2res :=
  ⟨rfl, rfl, rfl⟩

/-- The url-rule loop appends exactly one record when it aborts, none
otherwise. -/
theorem interceptUrlRules_log_count (m : String → String → Bool) :
    ∀ (rules : List Rule) (req : Request) (logs : List LogRecord) (res : InterceptResult),
    interceptUrlRules m rules req logs = Except.ok res →
    res.logs.length = logs.length + (if res.aborted = true then 1 else 0) := by
  intro rules
  induction rules with
  | nil =>
    intro req logs res h
    unfold interceptUrlRules at h
    injection h with h
    subst h
    simp
  | cons r rs ih =>
    intro req logs res h
    unfold interceptUrlRules at h
    split at h
    · split at h
      · injection h with h
        subst h
        simp
      · split at h
        · cases hmod : modifyRequest r req with
          | error e => rw [hmod] at h; cases h
          | ok req2 => rw [hmod] at h; exact ih req2 logs res h
        · exact ih req logs res h
    · exact ih req logs res h

/-- C3 (amended): in request interception the executor appends exactly
one log record when the request is blocked (by a matching block rule or
by the fingerprint heuristic) and none otherwise — in particular none
for a modify decision and none for an allow with no matching rule. -/
theorem c3_log_iff_blocked (m : String → String → Bool) (rules : List Rule) (req : Request)
    (res : InterceptResult) (h : interceptRequest m rules req = Except.ok res) :
    res.logs.length = if res.aborted = true then 1 else 0 := by
  unfold interceptRequest at h
  cases hloop : interceptUrlRules m rules req [] with
  | error e => rw [hloop] at h; cases h
  | ok res0 =>
    rw [hloop] at h
    simp only [Except.map] at h
    injection h with h
    have hc := interceptUrlRules_log_count m rules req [] res0 hloop
    rw [List.length_nil, Nat.zero_add] at hc
    rw [fingerprintCheck] at h
    by_cases hab : res0.aborted = true
    · rw [if_pos hab] at h
      subst h
      exact hc
    · rw [if_neg hab] at h
      rw [if_neg hab] at hc
      by_cases hfp : detectFingerprinting res0.request = true
      · rw [if_pos hfp] at h
        subst h
        simp [hc]
      · rw [if_neg hfp] at h
        subst h
        rw [if_neg hab]
        exact hc

/-- Witness for C3: the block scenario appends exactly one record. -/
theorem c3_log_iff_blocked_witness :
    interceptRequest matchesSub [c3blockRule] c3breq = Except.ok c3bres ∧
    c3bres.logs.length = if c3bres.aborted = true then 1 else 0 :=
  ⟨rfl, c3_log_iff_blocked matchesSub [c3blockRule] c3breq c3bres rfl⟩

/-- C3 (corrected), counterexample: the modify rule matches (a modify
decision is taken for the event), yet `_intercept_request` appends no
log record at all — refuting the claim that exactly one record is
appended for block, modify and log decisions alike. -/
theorem c3_modify_decision_not_logged :
    firstCategoryMatch matchesSub [c3modRule] c3req.url = some c3modRule ∧
    c3modRule.action = "modify" ∧
    interceptRequest matchesSub [c3modRule] c3req = Except.ok ⟨c3req, false, []⟩ :=
  ⟨rfl, rfl, rfl⟩

/-- C5 (confirmed, spec-modelled): `centralTrackers` returns pairs
`(domain, in-degree)` over the graph's nodes, sorted descending by
in-degree with ties broken by ascending lexicographic domain name
(`centralR`), and never longer than the requested `k`. -/
theorem c5_central_trackers_sorted_truncated (edges : List (String × String)) (k : Nat) :
    List.Pairwise centralR (centralTrackers edges k) ∧
    (centralTrackers edges k).length ≤ k ∧
    ∀ p ∈ centralTrackers edges k, p.2 = inDegree edges p.1 ∧ p.1 ∈ nodes edges := by
  refine ⟨?_, ?_, ?_⟩
  · exact List.Pairwise.sublist (List.take_sublist k _)
      (List.sorted_insertionSort centralR _)
  · exact List.length_take_le k _
  · intro p hp
    have h1 : p ∈ List.insertionSort centralR
        ((nodes edges).map fun d => (d, inDegree edges d)) :=
      (List.take_sublist k _).subset hp
    have h2 := (List.perm_insertionSort centralR _).mem_iff.mp h1
    rcases List.mem_map.mp h2 with ⟨d, hd, rfl⟩
    exact ⟨rfl, hd⟩

/-- Membership in the filtered successor list. -/
theorem mem_successorsAvoiding {edges : List (String × String)} {u v : String}
    {avoid : List String} :
    v ∈ successorsAvoiding edges u avoid ↔ (u, v) ∈ edges ∧ v ∉ avoid := by
  unfold successorsAvoiding
  constructor
  · intro h
    rcases List.mem_map.mp h with ⟨e, he, rfl⟩
    rcases List.mem_filter.mp he with ⟨hmem, hcond⟩
    rw [Bool.and_eq_true, beq_iff_eq, decide_eq_true_eq] at hcond
    rcases hcond with ⟨h1, h2⟩
    refine ⟨?_, h2⟩
    have he2 : (u, e.2) = e := by rw [← h1]
    rwa [he2]
  · rintro ⟨hmem, hnotin⟩
    apply List.mem_map.mpr
    refine ⟨(u, v), List.mem_filter.mpr ⟨hmem, ?_⟩, rfl⟩
    rw [Bool.and_eq_true, beq_iff_eq, decide_eq_true_eq]
    exact ⟨rfl, hnotin⟩

/-- Characterisation of the simple-path extension step: the outputs of
`chainsFrom` are exactly the extensions of `path` by a non-empty chain
of at most `fuel` fresh, pairwise-distinct nodes. -/
theorem mem_chainsFrom (edges : List (String × String)) :
    ∀ (fuel : Nat) (u : String) (path : List String) (q : List String),
    q ∈ chainsFrom edges fuel u path ↔
      ∃ ext : List String, ext ≠ [] ∧ q = path ++ ext ∧ ext.length ≤ fuel ∧
        List.Chain (fun a b => (a, b) ∈ edges) u ext ∧
        (∀ x ∈ ext, x ∉ path) ∧ ext.Nodup := by
  intro fuel
  induction fuel with
  | zero =>
    intro u path q
    constructor
    · intro hq
      exact absurd hq (List.not_mem_nil q)
    · rintro ⟨ext, hne, -, hlen, -, -, -⟩
      exact absurd (List.length_eq_zero.mp (Nat.le_zero.mp hlen)) hne
  | succ n ih =>
    intro u path q
    constructor
    · intro hq
      simp only [chainsFrom] at hq
      rcases List.mem_flatMap.mp hq with ⟨v, hv, hin⟩
      rcases mem_successorsAvoiding.mp hv with ⟨hedge, hnotin⟩
      rcases List.mem_cons.mp hin with rfl | hin
      · refine ⟨[v], by simp, rfl, by simp, ?_, ?_, by simp⟩
        · exact List.chain_cons.mpr ⟨hedge, List.Chain.nil⟩
        · intro x hx
          rcases List.mem_singleton.mp hx with rfl
          exact hnotin
      · rcases (ih v (path ++ [v]) q).mp hin with ⟨ext2, hne2, hq2, hlen2, hch2, hav2, hnd2⟩
        refine ⟨v :: ext2, by simp, ?_, ?_, ?_, ?_, ?_⟩
        · rw [hq2, List.append_assoc, List.singleton_append]
        · simpa using Nat.succ_le_succ hlen2
        · exact List.chain_cons.mpr ⟨hedge, hch2⟩
        · intro x hx
          rcases List.mem_cons.mp hx with rfl | hx
          · exact hnotin
          · intro hxp
            exact hav2 x hx (List.mem_append.mpr (Or.inl hxp))
        · refine List.nodup_cons.mpr ⟨?_, hnd2⟩
          intro hvext
          exact hav2 v hvext (List.mem_append.mpr (Or.inr (List.mem_singleton_self v)))
    · rintro ⟨ext, hne, rfl, hlen, hch, hav, hnd⟩
      cases ext with
      | nil => exact absurd rfl hne
      | cons v ext2 =>
        simp only [chainsFrom]
        apply List.mem_flatMap.mpr
        have hcc := List.chain_cons.mp hch
        have hvnot : v ∉ path := hav v (List.mem_cons_self ..)
        refine ⟨v, mem_successorsAvoiding.mpr ⟨hcc.1, hvnot⟩, ?_⟩
        by_cases h2 : ext2 = []
        · subst h2
          exact List.mem_cons.mpr (Or.inl rfl)
        · refine List.mem_cons.mpr (Or.inr ?_)
          apply (ih v (path ++ [v]) _).mpr
          refine ⟨ext2, h2, by rw [List.append_assoc, List.singleton_append], ?_, hcc.2, ?_,
            (List.nodup_cons.mp hnd).2⟩
          · simpa using hlen
          · intro x hx hxm
            rcases List.mem_append.mp hxm with hxp | hxv
            · exact hav x (List.mem_cons_of_mem _ hx) hxp
            · rcases List.mem_singleton.mp hxv with rfl
              exact (List.nodup_cons.mp hnd).1 hx

/-- C6 (confirmed, spec-modelled): the tracking-chain enumeration
returns exactly the simple directed paths of the graph — node sequences
chained by edges, without repeated nodes — of edge-length 2 up to
`maxLength` (node count 3 up to `maxLength + 1`), on every graph
including cyclic ones; the enumeration is a total function whose
recursion is bounded by `maxLength`, which is the required
termination. -/
theorem c6_tracking_chains_exact (edges : List (String × String)) (maxLength : Nat)
    (q : List String) :
    q ∈ trackingChains edges maxLength ↔
      List.Chain' (fun a b => (a, b) ∈ edges) q ∧ q.Nodup ∧
        3 ≤ q.length ∧ q.length ≤ maxLength + 1 := by
  unfold trackingChains
  rw [List.mem_flatMap]
  constructor
  · rintro ⟨u, hu, hq⟩
    rcases List.mem_filter.mp hq with ⟨hmem, hlen3⟩
    rw [decide_eq_true_eq] at hlen3
    rcases (mem_chainsFrom edges maxLength u [u] q).mp hmem with
      ⟨ext, hne, rfl, hlen, hch, hav, hnd⟩
    refine ⟨hch, ?_, hlen3, ?_⟩
    · refine List.nodup_cons.mpr ⟨?_, hnd⟩
      intro hu2
      exact hav u hu2 (List.mem_singleton_self u)
    · simpa using Nat.succ_le_succ hlen
  · rintro ⟨hch, hnd, hlen3, hlenM⟩
    rcases q with - | ⟨u, ext⟩
    · simp at hlen3
    rcases ext with - | ⟨v, rest⟩
    · simp at hlen3
    have hch2 : List.Chain (fun a b => (a, b) ∈ edges) u (v :: rest) := hch
    have hedge : (u, v) ∈ edges := (List.chain_cons.mp hch2).1
    have hu : u ∈ nodes edges :=
      List.mem_dedup.mpr (List.mem_append.mpr (Or.inl (List.mem_map.mpr ⟨(u, v), hedge, rfl⟩)))
    refine ⟨u, hu, List.mem_filter.mpr ⟨?_, by rw [decide_eq_true_eq]; exact hlen3⟩⟩
    apply (mem_chainsFrom edges maxLength u [u] _).mpr
    refine ⟨v :: rest, List.cons_ne_nil v rest, rfl, ?_, hch2, ?_, (List.nodup_cons.mp hnd).2⟩
    · simpa using hlenM
    · intro x hx hxm
      rcases List.mem_singleton.mp hxm with rfl
      exact (List.nodup_cons.mp hnd).1 hx

end Trackerscope
